import Mathlib

/-!
Shallow embedding of `bbb-webhooks/userMapping.js`: a user-ID mapping
registry holding an in-memory index (`db`, a JS object keyed by
`internalUserID`) mirrored to a redis store (a SET of record ids plus one
HASH per record), with a module-level counter `nextID`.

Modelling conventions:
* The JS object `db` is an insertion-ordered association list
  `List (String × Mapping)`; assignment `db[k] = v` replaces in place or
  appends, `delete db[k]` removes the entry, property lookup is first
  match.  (JS object string keys are unique and iterate in insertion
  order; operations below preserve key uniqueness, see `DbWF`.)
* The redis client is synchronous here: each command's callback runs
  immediately with an error drawn from a per-command error oracle fixed in
  the client; a command that errors leaves the store unchanged.  This
  linearises the single-threaded callback chains of the source.
* Record hashes round-trip exactly (`toRedis` writes the four fields,
  `fromRedis` reads them back, `parseInt` of a decimal `id` is the
  identity), so a stored hash is modelled directly as a `Mapping`.
* Callbacks are not passed as functions; instead each operation takes a
  flag `cb : Bool` ("a callback function was supplied") and returns the
  list of invocations of that callback (`CbEvent`s, in delivery order)
  plus a `faulted` flag that is set when the source would call an absent
  callback without the `typeof callback === 'function'` guard (a
  TypeError).  Where a synchronous statement and pending redis round-trips
  both invoke the callback (`removeMappingMeetingId`), the synchronous
  end-of-scan invocation is recorded first, because the round-trips only
  complete after the scan returns.  `Logger` calls are pure logging and
  are not modelled.
-/

set_option autoImplicit false

namespace UserMapping

/-- A mapping record: `id` is the allocator-assigned record id (the redis
record key), the other three fields are the user/session identifiers.
Mirrors the fields set by `addMapping` / `fromRedis` / `toRedis`. -/
structure Mapping where
  id : Nat
  internalUserID : String
  externalUserID : String
  meetingId : String
deriving DecidableEq, Repr

/-- The in-memory index `db`: a JS object keyed by `internalUserID`,
modelled as an insertion-ordered association list. -/
abbrev Db := List (String × Mapping)

/-- JS property read `db[k]` (first entry with key `k`). -/
def dbGet : Db → String → Option Mapping
  | [], _ => none
  | p :: t, k => if p.1 = k then some p.2 else dbGet t k

/-- JS property write `db[k] = v`: replace the existing entry for `k` in
place, else append at the end (JS objects keep string keys in insertion
order). -/
def dbSet : Db → String → Mapping → Db
  | [], k, v => [(k, v)]
  | p :: t, k, v => if p.1 = k then (k, v) :: t else p :: dbSet t k v

/-- JS `delete db[k]`. -/
def dbDel (db : Db) (k : String) : Db :=
  db.filter (fun p => p.1 ≠ k)

/-- The redis-side state: the SET `...:mappings` of record ids and one
HASH `...:mapping:<id>` per record (the key-naming function `userMap` is
injective in `id`, so hashes are indexed by the id directly). -/
structure RedisStore where
  userMaps : List Nat
  hashes : Nat → Option Mapping

/-- `hmset` of a record hash (applied only when the command succeeds). -/
def RedisStore.writeHash (st : RedisStore) (i : Nat) (m : Mapping) : RedisStore :=
  { st with hashes := fun j => if j = i then some m else st.hashes j }

/-- `del` of a record hash. -/
def RedisStore.delHash (st : RedisStore) (i : Nat) : RedisStore :=
  { st with hashes := fun j => if j = i then none else st.hashes j }

/-- `sadd` of an id to the SET of mappings. -/
def RedisStore.saddId (st : RedisStore) (i : Nat) : RedisStore :=
  { st with userMaps := if i ∈ st.userMaps then st.userMaps else st.userMaps ++ [i] }

/-- `srem` of an id from the SET of mappings. -/
def RedisStore.sremId (st : RedisStore) (i : Nat) : RedisStore :=
  { st with userMaps := st.userMaps.filter (fun j => j ≠ i) }

/-- The redis client: the store plus one error oracle per command (the
outcome each command would report for a given record id).  An erroring
command is logged by the source and leaves the store unchanged. -/
structure RedisClient where
  store : RedisStore
  hmsetErr : Nat → Option String
  saddErr : Nat → Option String
  sremErr : Nat → Option String
  delErr : Nat → Option String
  hgetallErr : Nat → Option String
  smembersErr : Option String

/-- The whole registry state: the module-level `db`, `nextID` and the
shared redis client of `userMapping.js`. -/
structure RegState where
  db : Db
  nextID : Nat
  client : RedisClient

/-- One invocation of a caller-supplied callback, with the arguments the
source passes. -/
inductive CbEvent where
  /-- `callback(error, db[this.internalUserID])` at the end of `save`
  (the error argument is the `sadd` error, which shadows the `hmset`
  one). -/
  | saved (err : Option String) (m : Mapping)
  /-- `callback(error, removed)` at the end of `destroy` (the error
  argument is the `del` error; `removed` tells whether the index entry
  existed). -/
  | destroyed (err : Option String) (removed : Bool)
  /-- `callback()` with no arguments. -/
  | bare
deriving DecidableEq, Repr

/-- A guarded invocation
`(typeof callback === 'function' ? callback(...) : undefined)`:
invokes the callback only when one was supplied; never faults. -/
def callGuarded (cb : Bool) (e : CbEvent) : List CbEvent × Bool :=
  (if cb then [e] else [], false)

/-- An unguarded invocation `callback(...)`: a TypeError (fault) when no
callback was supplied. -/
def callUnguarded (cb : Bool) (e : CbEvent) : List CbEvent × Bool :=
  (if cb then [e] else [], !cb)

/-- Outcome of running one operation: the new registry state, the
invocations of the caller-supplied callback in order, and whether an
unguarded call on an absent callback faulted. -/
structure OpOut where
  state : RegState
  events : List CbEvent
  faulted : Bool

/-- `UserMapping.prototype.save`: `hmset` the record hash, `sadd` its id
to the SET (each error logged and swallowed), then unconditionally insert
the mapping into `db` keyed by its `internalUserID` and guardedly invoke
the callback with the `sadd` error and the inserted mapping. -/
def saveOp (m : Mapping) (cb : Bool) (s : RegState) : OpOut :=
  let c := s.client
  let st1 := if (c.hmsetErr m.id).isNone then c.store.writeHash m.id m else c.store
  let err2 := c.saddErr m.id
  let st2 := if err2.isNone then st1.saddId m.id else st1
  let call := callGuarded cb (CbEvent.saved err2 m)
  { state := { db := dbSet s.db m.internalUserID m, nextID := s.nextID,
               client := { c with store := st2 } },
    events := call.1, faulted := call.2 }

/-- `UserMapping.prototype.destroy`: `srem` the id from the SET, `del` the
record hash (each error logged and swallowed), then delete
`db[this.internalUserID]` if present, guardedly invoking the callback with
the `del` error and `true` when the index entry existed, `false`
otherwise. -/
def destroyOp (m : Mapping) (cb : Bool) (s : RegState) : OpOut :=
  let c := s.client
  let st1 := if (c.sremErr m.id).isNone then c.store.sremId m.id else c.store
  let err2 := c.delErr m.id
  let st2 := if err2.isNone then st1.delHash m.id else st1
  let existed := (dbGet s.db m.internalUserID).isSome
  let call := callGuarded cb (CbEvent.destroyed err2 existed)
  { state := { db := dbDel s.db m.internalUserID, nextID := s.nextID,
               client := { c with store := st2 } },
    events := call.1, faulted := call.2 }

/-- `UserMapping.addMapping`: allocate `id = nextID++`, build the mapping,
`save` it (with a real inner callback), and forward `save`'s
`(error, result)` to the caller's callback, guarded.  Also returns the
constructed mapping (ghost, for specification). -/
def addMapping (internalUserID externalUserID meetingId : String) (cb : Bool)
    (s : RegState) : OpOut × Mapping :=
  let m : Mapping :=
    { id := s.nextID, internalUserID := internalUserID,
      externalUserID := externalUserID, meetingId := meetingId }
  let s1 : RegState := { s with nextID := s.nextID + 1 }
  let out := saveOp m true s1
  ({ state := out.state, events := if cb then out.events else [],
     faulted := false }, m)

/-- `UserMapping.removeMapping`: scan `db`, and for each entry whose
mapping's `internalUserID` equals the argument, `destroy` it (forwarding
the destroy callback's `(error, result)` to the caller's callback,
guarded) and push the destroy call's return value onto the result array;
for every other entry push `undefined`.  `destroy` has no `return`
statement, so the destroy call's return value is itself `undefined`:
every slot of the result array is `undefined` (modelled as `none` in the
JS-value domain `Option Unit`), match or not, and only the array's length
carries information.  There is no end-of-scan callback invocation.  The
scan is over the call-time entries: each destroy deletes only the key
being visited (keys equal their mapping's `internalUserID` for every
state built by these operations, see `DbWF`), which matches the JS
`for (let internal in db)` loop under in-loop deletion.  `removeStep` is
one loop iteration over one entry `p`. -/
def removeStep (internalUserID : String) (cb : Bool)
    (acc : OpOut × List (Option Unit)) (p : String × Mapping) :
    OpOut × List (Option Unit) :=
  if p.2.internalUserID = internalUserID then
    let out := destroyOp p.2 true acc.1.state
    ({ state := out.state,
       events := acc.1.events ++ (if cb then out.events else []),
       faulted := acc.1.faulted || out.faulted },
     acc.2 ++ [none])
  else (acc.1, acc.2 ++ [none])

/-- The `removeMapping` scan itself (see `removeStep`). -/
def removeMapping (internalUserID : String) (cb : Bool) (s : RegState) :
    OpOut × List (Option Unit) :=
  s.db.foldl (removeStep internalUserID cb)
    ({ state := s, events := [], faulted := false }, [])

/-- `UserMapping.removeMappingMeetingId`: the same scan matched on
`meetingId`, forwarding each destroy's `(error, result)` to the caller's
callback (guarded); after the scan it invokes `callback()` with NO
`typeof` guard (a fault when no callback was supplied).  The result array
it builds is discarded by the source (the IIFE returns `undefined`) and
all its slots are `undefined` (`destroy` returns no value); it is kept
here as ghost data.  `removeMeetStep` is one loop iteration over one
entry `p`. -/
def removeMeetStep (meetingId : String) (cb : Bool)
    (acc : OpOut × List (Option Unit)) (p : String × Mapping) :
    OpOut × List (Option Unit) :=
  if p.2.meetingId = meetingId then
    let out := destroyOp p.2 true acc.1.state
    ({ state := out.state,
       events := acc.1.events ++ (if cb then out.events else []),
       faulted := acc.1.faulted || out.faulted },
     acc.2 ++ [none])
  else (acc.1, acc.2 ++ [none])

/-- The `removeMappingMeetingId` scan followed by the unguarded
`callback()` (see `removeMeetStep`).  The events are recorded in the
order the program delivers them: the scan itself is synchronous and the
destroys' redis `srem`/`del` round-trips complete only after it, so the
end-of-scan `callback()` invocation comes FIRST, before the forwarded
destroy completions (which then arrive in command-issue order).  When no
callback was supplied the unguarded `callback()` throws at scan end, but
the already-issued redis commands still complete, so the state effects
stand. -/
def removeMappingMeetingId (meetingId : String) (cb : Bool) (s : RegState) :
    OpOut × List (Option Unit) :=
  let loop :=
    s.db.foldl (removeMeetStep meetingId cb)
      ({ state := s, events := [], faulted := false }, [])
  let fin := callUnguarded cb CbEvent.bare
  ({ state := loop.1.state, events := fin.1 ++ loop.1.events,
     faulted := loop.1.faulted || fin.2 }, loop.2)

/-- `UserMapping.getExternalUserID`: pure in-memory read; `undefined`
(here `none`) when the key is absent. -/
def getExternalUserID (internalUserID : String) (s : RegState) : Option String :=
  (dbGet s.db internalUserID).map (fun m => m.externalUserID)

/-- `UserMapping.allSync`: enumerate the values of `db`. -/
def allSync (s : RegState) : List Mapping :=
  s.db.map (fun p => p.2)

/-- One `resync` reconstruction task for the set member `id`:
`hgetall` the record hash (an error is logged, leaving the reply absent);
when a hash is present, rebuild the mapping via `fromRedis`, `save` it
(with a real inner callback), and inside `save`'s callback raise `nextID`
to `mapping.id + 1` when `mapping.id >= nextID`; when absent, skip.  The
second accumulator component collects the reconstructed mappings
(ghost). -/
def resyncStep (acc : RegState × List Mapping) (id : Nat) : RegState × List Mapping :=
  let s := acc.1
  let dataOpt := if (s.client.hgetallErr id).isSome then none
                 else s.client.store.hashes id
  match dataOpt with
  | none => acc
  | some data =>
      let m : Mapping :=
        { id := data.id, internalUserID := data.internalUserID,
          externalUserID := data.externalUserID, meetingId := data.meetingId }
      let out := saveOp m true s
      let s2 := if out.state.nextID ≤ m.id then { out.state with nextID := m.id + 1 }
                else out.state
      (s2, acc.2 ++ [m])

/-- The `async.series` over the reconstruction tasks, in the order of the
`smembers` reply (the tasks run sequentially; every task reports success,
so the series never aborts). -/
def resyncLoop (ids : List Nat) (s : RegState) : RegState × List Mapping :=
  ids.foldl resyncStep (s, [])

/-- `UserMapping.resync`: `smembers` the SET of ids (an error is logged,
after which the source iterates the absent reply anyway — a fault), run
the reconstruction tasks in series, then guardedly invoke `callback()`.
Also returns the reconstructed mappings (ghost). -/
def resync (cb : Bool) (s : RegState) : OpOut × List Mapping :=
  if s.client.smembersErr.isSome then
    ({ state := s, events := [], faulted := true }, [])
  else
    let r := resyncLoop s.client.store.userMaps s
    let fin := callGuarded cb CbEvent.bare
    ({ state := r.1, events := fin.1, faulted := fin.2 }, r.2)

/-- The registry's public operations, for stating invariants over
arbitrary operation sequences (`save` and `destroy` are included because
they are reachable methods of the class). -/
inductive Op where
  | add (internalUserID externalUserID meetingId : String)
  | remove (internalUserID : String)
  | removeMeet (meetingId : String)
  | resyncAll
  | saveM (m : Mapping)
  | destroyM (m : Mapping)

/-- State transition of one operation (the state component does not depend
on whether a callback was supplied). -/
def step (s : RegState) (op : Op) : RegState :=
  match op with
  | .add iu eu mt => (addMapping iu eu mt false s).1.state
  | .remove iu => (removeMapping iu false s).1.state
  | .removeMeet mt => (removeMappingMeetingId mt false s).1.state
  | .resyncAll => (resync false s).1.state
  | .saveM m => (saveOp m false s).state
  | .destroyM m => (destroyOp m false s).state

/-- Run a sequence of operations. -/
def run (s : RegState) (ops : List Op) : RegState :=
  ops.foldl step s

/-- The record ids handed out by `addMapping`'s allocator along an
operation sequence, in order. -/
def allocIds (s : RegState) : List Op → List Nat
  | [] => []
  | op :: rest =>
      match op with
      | .add iu eu mt => s.nextID :: allocIds (step s (.add iu eu mt)) rest
      | _ => allocIds (step s op) rest

/-- Well-formedness of the in-memory index: keys are unique (JS object
keys) and every entry's key is its mapping's `internalUserID`. -/
def DbWF (db : Db) : Prop :=
  (db.map Prod.fst).Nodup ∧ ∀ p ∈ db, p.2.internalUserID = p.1

end UserMapping

namespace UserMapping

/-! ### Basic lemmas about the index primitives -/

theorem dbGet_dbSet (db : Db) (k : String) (v : Mapping) (k' : String) :
    dbGet (dbSet db k v) k' = if k = k' then some v else dbGet db k' := by
  induction db with
  | nil => simp [dbSet, dbGet]
  | cons p t ih =>
      by_cases h : p.1 = k
      · have hpk : p.1 = k' ↔ k = k' := by rw [h]
        by_cases h2 : k = k'
        · simp [dbSet, h, dbGet, h2]
        · simp [dbSet, h, dbGet, h2, hpk.not.mpr h2]
      · by_cases h2 : p.1 = k'
        · have hkk : ¬ k = k' := fun hk => h (hk ▸ h2)
          have hk'k : ¬ k' = k := fun hk => hkk hk.symm
          simp [dbSet, h, dbGet, h2, hkk, hk'k]
        · simp [dbSet, h, dbGet, h2, ih]

theorem dbGet_eq_none_iff (db : Db) (k : String) :
    dbGet db k = none ↔ ∀ p ∈ db, p.1 ≠ k := by
  induction db with
  | nil => simp [dbGet]
  | cons p t ih =>
      by_cases h : p.1 = k
      · simp [dbGet, h]
      · simp [dbGet, h, ih]

theorem dbDel_of_get_none {db : Db} {k : String} (h : dbGet db k = none) :
    dbDel db k = db := by
  rw [dbDel, List.filter_eq_self]
  intro p hp
  simpa using (dbGet_eq_none_iff db k).1 h p hp

theorem dbSet_of_get_none {db : Db} {k : String} (v : Mapping)
    (h : dbGet db k = none) : dbSet db k v = db ++ [(k, v)] := by
  induction db with
  | nil => rfl
  | cons p t ih =>
      rw [dbGet_eq_none_iff] at h
      have hp : p.1 ≠ k := h p (by simp)
      have ht : dbGet t k = none := by
        rw [dbGet_eq_none_iff]
        intro q hq
        exact h q (by simp [hq])
      simp [dbSet, hp, ih ht]

theorem length_dbSet_of_get_none {db : Db} {k : String} (v : Mapping)
    (h : dbGet db k = none) : (dbSet db k v).length = db.length + 1 := by
  rw [dbSet_of_get_none v h]
  simp

/-! ### Component lemmas for the operations -/

@[simp] theorem saveOp_state_db (m : Mapping) (cb : Bool) (s : RegState) :
    (saveOp m cb s).state.db = dbSet s.db m.internalUserID m := rfl

@[simp] theorem saveOp_state_nextID (m : Mapping) (cb : Bool) (s : RegState) :
    (saveOp m cb s).state.nextID = s.nextID := rfl

@[simp] theorem saveOp_hgetallErr (m : Mapping) (cb : Bool) (s : RegState) :
    (saveOp m cb s).state.client.hgetallErr = s.client.hgetallErr := rfl

@[simp] theorem saveOp_smembersErr (m : Mapping) (cb : Bool) (s : RegState) :
    (saveOp m cb s).state.client.smembersErr = s.client.smembersErr := rfl

@[simp] theorem saveOp_hmsetErr (m : Mapping) (cb : Bool) (s : RegState) :
    (saveOp m cb s).state.client.hmsetErr = s.client.hmsetErr := rfl

@[simp] theorem saveOp_saddErr (m : Mapping) (cb : Bool) (s : RegState) :
    (saveOp m cb s).state.client.saddErr = s.client.saddErr := rfl

theorem saveOp_hashes_ne (m : Mapping) (cb : Bool) (s : RegState) (j : Nat)
    (h : j ≠ m.id) :
    (saveOp m cb s).state.client.store.hashes j = s.client.store.hashes j := by
  by_cases h1 : (s.client.hmsetErr m.id).isNone <;>
    by_cases h2 : (s.client.saddErr m.id).isNone <;>
      simp [saveOp, RedisStore.writeHash, RedisStore.saddId, h1, h2, h]

theorem saveOp_userMaps_mono (m : Mapping) (cb : Bool) (s : RegState) (i : Nat)
    (h : i ∈ s.client.store.userMaps) :
    i ∈ (saveOp m cb s).state.client.store.userMaps := by
  by_cases h1 : (s.client.hmsetErr m.id).isNone <;>
    by_cases h2 : (s.client.saddErr m.id).isNone <;>
      by_cases h3 : m.id ∈ s.client.store.userMaps <;>
        simp [saveOp, RedisStore.writeHash, RedisStore.saddId, h1, h2, h3, h]

@[simp] theorem destroyOp_state_db (m : Mapping) (cb : Bool) (s : RegState) :
    (destroyOp m cb s).state.db = dbDel s.db m.internalUserID := rfl

@[simp] theorem destroyOp_state_nextID (m : Mapping) (cb : Bool) (s : RegState) :
    (destroyOp m cb s).state.nextID = s.nextID := rfl

@[simp] theorem destroyOp_faulted (m : Mapping) (cb : Bool) (s : RegState) :
    (destroyOp m cb s).faulted = false := rfl

@[simp] theorem destroyOp_events_true (m : Mapping) (s : RegState) :
    (destroyOp m true s).events =
      [CbEvent.destroyed (s.client.delErr m.id) ((dbGet s.db m.internalUserID).isSome)] := rfl

@[simp] theorem addMapping_state_db (iu eu mt : String) (cb : Bool) (s : RegState) :
    (addMapping iu eu mt cb s).1.state.db =
      dbSet s.db iu ⟨s.nextID, iu, eu, mt⟩ := rfl

@[simp] theorem addMapping_state_nextID (iu eu mt : String) (cb : Bool) (s : RegState) :
    (addMapping iu eu mt cb s).1.state.nextID = s.nextID + 1 := rfl

@[simp] theorem addMapping_snd (iu eu mt : String) (cb : Bool) (s : RegState) :
    (addMapping iu eu mt cb s).2 = ⟨s.nextID, iu, eu, mt⟩ := rfl

theorem getExternalUserID_addMapping (iu eu mt : String) (cb : Bool)
    (s : RegState) (uid : String) :
    getExternalUserID uid (addMapping iu eu mt cb s).1.state =
      if iu = uid then some eu else getExternalUserID uid s := by
  simp only [getExternalUserID, addMapping_state_db, dbGet_dbSet]
  split <;> rfl

/-! ### C1: last-write-wins lookup after a sequence of `addMapping` calls -/

/-- Run a sequence of `addMapping` calls
(`internalUserID, externalUserID, meetingId` triples, in order). -/
def runAdds (s : RegState) (calls : List (String × String × String)) : RegState :=
  calls.foldl (fun st c => (addMapping c.1 c.2.1 c.2.2 false st).1.state) s

/-- C1: after any sequence of `addMapping` calls, `getExternalUserID`
returns the `externalUserID` of the most recent call for that
`internalUserID` (last write wins); if the sequence never used that
`internalUserID`, the lookup is what it was before the sequence. -/
theorem claim1_lookup_last_write_wins (s : RegState)
    (calls : List (String × String × String)) (uid : String) :
    getExternalUserID uid (runAdds s calls) =
      match calls.reverse.find? (fun c => c.1 == uid) with
      | some c => some c.2.1
      | none => getExternalUserID uid s := by
  induction calls generalizing s with
  | nil => simp [runAdds]
  | cons c t ih =>
      have h1 : runAdds s (c :: t) =
          runAdds (addMapping c.1 c.2.1 c.2.2 false s).1.state t := rfl
      rw [h1, ih]
      rw [List.reverse_cons, List.find?_append]
      cases hf : t.reverse.find? (fun c => c.1 == uid) with
      | some c' => simp [Option.or]
      | none =>
          by_cases h : c.1 = uid
          · simp [Option.or, List.find?, h, getExternalUserID_addMapping]
          · have hb : (c.1 == uid) = false := by simp [h]
            simp [Option.or, List.find?, hb, h, getExternalUserID_addMapping]

end UserMapping

namespace UserMapping

/-! ### Concrete states used by the counterexamples and witnesses -/

/-- A redis client whose commands all succeed, over a given store. -/
def okClient (st : RedisStore) : RedisClient :=
  { store := st, hmsetErr := fun _ => none, saddErr := fun _ => none,
    sremErr := fun _ => none, delErr := fun _ => none,
    hgetallErr := fun _ => none, smembersErr := none }

/-- A sample mapping record. -/
def sampleMapping : Mapping :=
  { id := 1, internalUserID := "u1", externalUserID := "e1", meetingId := "m1" }

/-- A registry holding exactly `sampleMapping`, all store commands
succeeding. -/
def sampleState : RegState :=
  { db := [("u1", sampleMapping)], nextID := 2,
    client := okClient
      { userMaps := [1], hashes := fun i => if i = 1 then some sampleMapping else none } }

/-- A store listing two record ids whose field groups carry the same
`internalUserID`. -/
def dupStore : RedisStore :=
  { userMaps := [1, 2],
    hashes := fun i =>
      if i = 1 then
        some { id := 1, internalUserID := "u", externalUserID := "e1", meetingId := "mX" }
      else if i = 2 then
        some { id := 2, internalUserID := "u", externalUserID := "e2", meetingId := "mX" }
      else none }

/-- A fresh registry (empty index, counter at 1) over `dupStore`. -/
def dupState : RegState := { db := [], nextID := 1, client := okClient dupStore }


end UserMapping

namespace UserMapping

/-! ### Lemmas about the removal scans -/

theorem removeFold_ret_length (uid : String) (cb : Bool)
    (entries : List (String × Mapping)) (acc : OpOut × List (Option Unit)) :
    (entries.foldl (removeStep uid cb) acc).2.length = acc.2.length + entries.length := by
  induction entries generalizing acc with
  | nil => simp
  | cons p t ih =>
      rw [List.foldl_cons, ih]
      by_cases h : p.2.internalUserID = uid <;> simp [removeStep, h] <;> omega

theorem removeFold_ret_none (uid : String) (cb : Bool)
    (entries : List (String × Mapping)) (acc : OpOut × List (Option Unit)) :
    (entries.foldl (removeStep uid cb) acc).2 =
      acc.2 ++ List.replicate entries.length none := by
  induction entries generalizing acc with
  | nil => simp
  | cons p t ih =>
      rw [List.foldl_cons, ih]
      by_cases h : p.2.internalUserID = uid <;>
        simp [removeStep, h, List.append_assoc, List.replicate_succ]

theorem removeFold_events_length (uid : String)
    (entries : List (String × Mapping)) (acc : OpOut × List (Option Unit)) :
    (entries.foldl (removeStep uid true) acc).1.events.length =
      acc.1.events.length + entries.countP (fun p => decide (p.2.internalUserID = uid)) := by
  induction entries generalizing acc with
  | nil => simp
  | cons p t ih =>
      rw [List.foldl_cons, ih]
      by_cases h : p.2.internalUserID = uid <;>
        simp [removeStep, h, List.countP_cons] <;> omega

theorem removeFold_faulted (uid : String) (cb : Bool)
    (entries : List (String × Mapping)) (acc : OpOut × List (Option Unit)) :
    (entries.foldl (removeStep uid cb) acc).1.faulted = acc.1.faulted := by
  induction entries generalizing acc with
  | nil => simp
  | cons p t ih =>
      rw [List.foldl_cons, ih]
      by_cases h : p.2.internalUserID = uid <;> simp [removeStep, h]

theorem removeFold_state_nextID (uid : String) (cb : Bool)
    (entries : List (String × Mapping)) (acc : OpOut × List (Option Unit)) :
    (entries.foldl (removeStep uid cb) acc).1.state.nextID = acc.1.state.nextID := by
  induction entries generalizing acc with
  | nil => rfl
  | cons p t ih =>
      rw [List.foldl_cons, ih]
      by_cases h : p.2.internalUserID = uid <;> simp [removeStep, h]

theorem removeFold_state_db (uid : String) (cb : Bool)
    (entries : List (String × Mapping)) (acc : OpOut × List (Option Unit)) :
    (entries.foldl (removeStep uid cb) acc).1.state.db =
      entries.foldl
        (fun d p => if p.2.internalUserID = uid then dbDel d p.2.internalUserID else d)
        acc.1.state.db := by
  induction entries generalizing acc with
  | nil => rfl
  | cons p t ih =>
      rw [List.foldl_cons, ih, List.foldl_cons]
      by_cases h : p.2.internalUserID = uid <;> simp [removeStep, h]

theorem meetFold_events_length (mt : String)
    (entries : List (String × Mapping)) (acc : OpOut × List (Option Unit)) :
    (entries.foldl (removeMeetStep mt true) acc).1.events.length =
      acc.1.events.length + entries.countP (fun p => decide (p.2.meetingId = mt)) := by
  induction entries generalizing acc with
  | nil => simp
  | cons p t ih =>
      rw [List.foldl_cons, ih]
      by_cases h : p.2.meetingId = mt <;>
        simp [removeMeetStep, h, List.countP_cons] <;> omega

theorem meetFold_faulted (mt : String) (cb : Bool)
    (entries : List (String × Mapping)) (acc : OpOut × List (Option Unit)) :
    (entries.foldl (removeMeetStep mt cb) acc).1.faulted = acc.1.faulted := by
  induction entries generalizing acc with
  | nil => simp
  | cons p t ih =>
      rw [List.foldl_cons, ih]
      by_cases h : p.2.meetingId = mt <;> simp [removeMeetStep, h]

theorem meetFold_state_nextID (mt : String) (cb : Bool)
    (entries : List (String × Mapping)) (acc : OpOut × List (Option Unit)) :
    (entries.foldl (removeMeetStep mt cb) acc).1.state.nextID = acc.1.state.nextID := by
  induction entries generalizing acc with
  | nil => rfl
  | cons p t ih =>
      rw [List.foldl_cons, ih]
      by_cases h : p.2.meetingId = mt <;> simp [removeMeetStep, h]

theorem meetFold_state_db (mt : String) (cb : Bool)
    (entries : List (String × Mapping)) (acc : OpOut × List (Option Unit)) :
    (entries.foldl (removeMeetStep mt cb) acc).1.state.db =
      entries.foldl
        (fun d p => if p.2.meetingId = mt then dbDel d p.2.internalUserID else d)
        acc.1.state.db := by
  induction entries generalizing acc with
  | nil => rfl
  | cons p t ih =>
      rw [List.foldl_cons, ih, List.foldl_cons]
      by_cases h : p.2.meetingId = mt <;> simp [removeMeetStep, h]

theorem dbDel_idem (d : Db) (k : String) : dbDel (dbDel d k) k = dbDel d k := by
  simp [dbDel, List.filter_filter]

theorem fold_dbDel (uid : String) (entries : List (String × Mapping)) (d : Db) :
    entries.foldl
        (fun d p => if p.2.internalUserID = uid then dbDel d p.2.internalUserID else d) d =
      if entries.any (fun p => decide (p.2.internalUserID = uid)) then dbDel d uid else d := by
  induction entries generalizing d with
  | nil => simp
  | cons p t ih =>
      by_cases h : p.2.internalUserID = uid
      · rw [List.foldl_cons]
        simp only [h, if_pos, ih]
        by_cases h2 : t.any (fun p => decide (p.2.internalUserID = uid)) <;>
          simp [List.any_cons, h, h2, dbDel_idem]
      · rw [List.foldl_cons]
        simp only [h, if_neg, ih]
        rw [List.any_cons]
        cases hb : decide (p.2.internalUserID = uid) with
        | true => exact absurd (of_decide_eq_true hb) h
        | false => rw [Bool.false_or]; simp

theorem length_dbDel (d : Db) (k : String) :
    (dbDel d k).length + d.countP (fun p => decide (p.1 = k)) = d.length := by
  induction d with
  | nil => simp [dbDel]
  | cons p t ih =>
      by_cases h : p.1 = k <;>
        simp [dbDel, List.filter_cons, h, List.countP_cons] at ih ⊢ <;> omega

end UserMapping

namespace UserMapping

/-! ### C3: what `removeMapping` returns -/

/-- C3 (counterexample): `removeMapping` does not return the count of
removed mappings.  On an index holding one entry for `"u1"`,
`removeMapping "u2"` removes nothing (the index is unchanged) yet returns
a one-element array (`[undefined]`), so the returned value's size differs
from the number of entries destroyed. -/
theorem claim3_counterexample :
    (removeMapping "u2" true sampleState).2.length = 1 ∧
    (removeMapping "u2" true sampleState).1.state.db = sampleState.db ∧
    ¬ ((removeMapping "u2" true sampleState).2.length =
        sampleState.db.length -
          (removeMapping "u2" true sampleState).1.state.db.length) := by
  exact ⟨by decide, by decide, by decide⟩

/-- C3 (amended): `removeMapping internalUserID` does not return a count
of removed mappings: it returns an array with one slot per index entry
scanned, and every slot is `undefined` (`destroy` has no `return`
statement, so the match branch pushes `undefined` exactly like the
non-match branch), so the returned array reveals only how many entries
were scanned.  The number of entries actually removed from the index
equals the number of matching entries, but it is not reported to the
caller through the return value. -/
theorem claim3_remove_returns_array (s : RegState) (uid : String) (cb : Bool)
    (h : ∀ p ∈ s.db, p.2.internalUserID = p.1) :
    (removeMapping uid cb s).2 = List.replicate s.db.length none ∧
    (removeMapping uid cb s).2.length = s.db.length ∧
    (removeMapping uid cb s).1.state.db.length +
      s.db.countP (fun p => decide (p.2.internalUserID = uid)) = s.db.length := by
  refine ⟨?_, ?_, ?_⟩
  · rw [removeMapping, removeFold_ret_none]; simp
  · rw [removeMapping, removeFold_ret_length]; simp
  · rw [removeMapping, removeFold_state_db]
    rw [show ((({ state := s, events := [], faulted := false } : OpOut),
        ([] : List (Option Unit))).1.state.db) = s.db from rfl]
    rw [fold_dbDel]
    have hcong : s.db.countP (fun p => decide (p.2.internalUserID = uid)) =
        s.db.countP (fun p => decide (p.1 = uid)) :=
      List.countP_congr (fun x hx => by rw [h x hx])
    by_cases ha : s.db.any (fun p => decide (p.2.internalUserID = uid)) = true
    · rw [if_pos ha, hcong]
      exact length_dbDel s.db uid
    · rw [if_neg ha]
      have h0 : s.db.countP (fun p => decide (p.2.internalUserID = uid)) = 0 := by
        rw [List.countP_eq_zero]
        intro a haa hpa
        exact ha (List.any_eq_true.mpr ⟨a, haa, hpa⟩)
      omega

/-- Witness for `claim3_remove_returns_array` at a concrete state. -/
theorem claim3_witness :
    (removeMapping "u1" true sampleState).2 =
      List.replicate sampleState.db.length none ∧
    (removeMapping "u1" true sampleState).2.length = sampleState.db.length ∧
    (removeMapping "u1" true sampleState).1.state.db.length +
      sampleState.db.countP (fun p => decide (p.2.internalUserID = "u1")) =
        sampleState.db.length :=
  claim3_remove_returns_array sampleState "u1" true (by decide)

/-! ### C4: the `removeMappingMeetingId` completion signal -/

/-- C4 (counterexample): with one matching entry and a callback supplied,
the callback fires twice (once from the matched entry's destroy, once at
the end of the scan), not exactly once. -/
theorem claim4_counterexample :
    (removeMappingMeetingId "m1" true sampleState).1.events.length = 2 ∧
    ¬ ((removeMappingMeetingId "m1" true sampleState).1.events.length = 1) := by
  exact ⟨by decide, by decide⟩

/-- C4 (amended): `removeMappingMeetingId` does not fire its completion
signal exactly once: the supplied callback is invoked once at the end of
the scan (the unguarded `callback()`, which does not wait for the
destroys' persistence round-trips) and once more per matched entry when
each destroy's round-trip completes, for `matches + 1` invocations in
total. -/
theorem claim4_meet_callback_events (s : RegState) (mt : String) :
    (removeMappingMeetingId mt true s).1.events.length =
      s.db.countP (fun p => decide (p.2.meetingId = mt)) + 1 := by
  simp only [removeMappingMeetingId, callUnguarded]
  simp [meetFold_events_length, Nat.add_comm]

/-! ### C5: the `removeMapping` completion signal -/

/-- C5 (counterexample): `removeMapping` has no end-of-scan callback
invocation: with a callback supplied and no matching index entry the
callback is never invoked, so the caller does not receive a completion
signal. -/
theorem claim5_counterexample :
    (removeMapping "u2" true sampleState).1.events = [] := by decide

/-- C5 (amended): the callback supplied to `removeMapping` is invoked
exactly once per matching index entry (from each destroy's completion);
when no entry matches it is never invoked. -/
theorem claim5_remove_callback_per_match (s : RegState) (uid : String) :
    (removeMapping uid true s).1.events.length =
      s.db.countP (fun p => decide (p.2.internalUserID = uid)) := by
  rw [removeMapping, removeFold_events_length]; simp

/-! ### C10: which operations tolerate a missing callback -/

/-- C10: `removeMappingMeetingId` faults (TypeError on the unguarded
end-of-scan `callback()`) exactly when called without a callback, while
`save`, `destroy`, `addMapping` and `removeMapping` guard every callback
invocation and accept a missing callback. -/
theorem claim10_callback_guard (s : RegState) (mt iu eu : String) (m : Mapping) :
    (removeMappingMeetingId mt false s).1.faulted = true ∧
    (removeMappingMeetingId mt true s).1.faulted = false ∧
    (saveOp m false s).faulted = false ∧
    (destroyOp m false s).faulted = false ∧
    (addMapping iu eu mt false s).1.faulted = false ∧
    (removeMapping iu false s).1.faulted = false := by
  refine ⟨?_, ?_, rfl, rfl, rfl, ?_⟩
  · simp only [removeMappingMeetingId, callUnguarded]
    simp [meetFold_faulted]
  · simp only [removeMappingMeetingId, callUnguarded]
    simp [meetFold_faulted]
  · rw [removeMapping, removeFold_faulted]

end UserMapping

namespace UserMapping

/-! ### Lemmas about the resync loop -/

theorem resyncStep_eq_none {acc : RegState × List Mapping} {id : Nat}
    (h : (if (acc.1.client.hgetallErr id).isSome then none
          else acc.1.client.store.hashes id) = none) :
    resyncStep acc id = acc := by
  simp only [resyncStep]
  rw [h]

theorem resyncStep_eq_some {acc : RegState × List Mapping} {id : Nat} {data : Mapping}
    (h : (if (acc.1.client.hgetallErr id).isSome then none
          else acc.1.client.store.hashes id) = some data) :
    resyncStep acc id =
      (if (saveOp data true acc.1).state.nextID ≤ data.id then
        { (saveOp data true acc.1).state with nextID := data.id + 1 }
       else (saveOp data true acc.1).state,
       acc.2 ++ [data]) := by
  simp only [resyncStep]
  rw [h]

theorem resyncStep_nextID_mono (acc : RegState × List Mapping) (id : Nat) :
    acc.1.nextID ≤ (resyncStep acc id).1.nextID := by
  cases h : (if (acc.1.client.hgetallErr id).isSome then none
             else acc.1.client.store.hashes id) with
  | none => rw [resyncStep_eq_none h]
  | some data =>
      rw [resyncStep_eq_some h]
      by_cases h2 : (saveOp data true acc.1).state.nextID ≤ data.id
      · rw [if_pos h2]
        show acc.1.nextID ≤ data.id + 1
        simp only [saveOp_state_nextID] at h2
        omega
      · rw [if_neg h2]
        show acc.1.nextID ≤ (saveOp data true acc.1).state.nextID
        simp

theorem resyncStep_id_lt {acc : RegState × List Mapping} {id : Nat} {data : Mapping}
    (h : (if (acc.1.client.hgetallErr id).isSome then none
          else acc.1.client.store.hashes id) = some data) :
    data.id < (resyncStep acc id).1.nextID := by
  rw [resyncStep_eq_some h]
  by_cases h2 : (saveOp data true acc.1).state.nextID ≤ data.id
  · rw [if_pos h2]
    show data.id < data.id + 1
    omega
  · rw [if_neg h2]
    show data.id < (saveOp data true acc.1).state.nextID
    omega

theorem resyncLoop_nextID_mono (ids : List Nat) (s : RegState) (l : List Mapping) :
    s.nextID ≤ (ids.foldl resyncStep (s, l)).1.nextID := by
  induction ids generalizing s l with
  | nil => exact Nat.le_refl _
  | cons id t ih =>
      rw [List.foldl_cons]
      calc s.nextID ≤ (resyncStep (s, l) id).1.nextID := resyncStep_nextID_mono (s, l) id
        _ ≤ _ := by
            rw [show resyncStep (s, l) id =
                ((resyncStep (s, l) id).1, (resyncStep (s, l) id).2) from rfl]
            exact ih _ _

theorem resyncLoop_recon_lt (ids : List Nat) (s : RegState) (l : List Mapping)
    (hl : ∀ m ∈ l, m.id < s.nextID) :
    ∀ m ∈ (ids.foldl resyncStep (s, l)).2, m.id < (ids.foldl resyncStep (s, l)).1.nextID := by
  induction ids generalizing s l with
  | nil => exact hl
  | cons id t ih =>
      rw [List.foldl_cons]
      cases h : (if (s.client.hgetallErr id).isSome then none
                 else s.client.store.hashes id) with
      | none =>
          rw [@resyncStep_eq_none (s, l) id h]
          exact ih s l hl
      | some data =>
          have hmono : s.nextID ≤ (resyncStep (s, l) id).1.nextID :=
            resyncStep_nextID_mono (s, l) id
          have hlt : data.id < (resyncStep (s, l) id).1.nextID :=
            @resyncStep_id_lt (s, l) id data h
          have hsnd : (resyncStep (s, l) id).2 = l ++ [data] := by
            rw [@resyncStep_eq_some (s, l) id data h]
          rw [show resyncStep (s, l) id =
              ((resyncStep (s, l) id).1, (resyncStep (s, l) id).2) from rfl]
          apply ih
          intro m hm
          rw [hsnd] at hm
          rcases List.mem_append.1 hm with hm | hm
          · exact lt_of_lt_of_le (hl m hm) hmono
          · rw [List.mem_singleton.1 hm]
            exact hlt

end UserMapping

namespace UserMapping

/-! ### C6: allocator monotonicity -/

theorem resync_eq_of_ok (cb : Bool) (s : RegState) (h : s.client.smembersErr = none) :
    resync cb s =
      ({ state := (resyncLoop s.client.store.userMaps s).1,
         events := (callGuarded cb CbEvent.bare).1,
         faulted := (callGuarded cb CbEvent.bare).2 },
       (resyncLoop s.client.store.userMaps s).2) := by
  simp only [resync, h]
  simp

theorem resync_eq_of_some {cb : Bool} {s : RegState} {e : String}
    (h : s.client.smembersErr = some e) :
    resync cb s = ({ state := s, events := [], faulted := true }, []) := by
  simp only [resync, h]
  simp

theorem step_nextID_mono (s : RegState) (op : Op) : s.nextID ≤ (step s op).nextID := by
  cases op with
  | add iu eu mt => simp [step]
  | remove iu =>
      simp only [step]
      rw [removeMapping, removeFold_state_nextID]
  | removeMeet mt =>
      simp only [step]
      rw [show (removeMappingMeetingId mt false s).1.state =
          (s.db.foldl (removeMeetStep mt false)
            ({ state := s, events := [], faulted := false }, [])).1.state from rfl]
      rw [meetFold_state_nextID]
  | resyncAll =>
      cases h : s.client.smembersErr with
      | none =>
          rw [show step s Op.resyncAll = (resync false s).1.state from rfl,
             resync_eq_of_ok false s h]
          exact resyncLoop_nextID_mono _ s []
      | some e =>
          rw [show step s Op.resyncAll = (resync false s).1.state from rfl,
             resync_eq_of_some h]
  | saveM m => exact Nat.le_refl _
  | destroyM m => exact Nat.le_refl _

theorem allocIds_lower (ops : List Op) (s : RegState) :
    ∀ x ∈ allocIds s ops, s.nextID ≤ x := by
  induction ops generalizing s with
  | nil => simp [allocIds]
  | cons op t ih =>
      cases op with
      | add iu eu mt =>
          intro x hx
          simp only [allocIds] at hx
          rcases List.mem_cons.1 hx with rfl | hx
          · exact Nat.le_refl _
          · have h1 := ih (step s (.add iu eu mt)) x hx
            have h2 := step_nextID_mono s (.add iu eu mt)
            omega
      | remove iu =>
          intro x hx
          simp only [allocIds] at hx
          have h1 := ih (step s (.remove iu)) x hx
          have h2 := step_nextID_mono s (.remove iu)
          omega
      | removeMeet mt =>
          intro x hx
          simp only [allocIds] at hx
          have h1 := ih (step s (.removeMeet mt)) x hx
          have h2 := step_nextID_mono s (.removeMeet mt)
          omega
      | resyncAll =>
          intro x hx
          simp only [allocIds] at hx
          have h1 := ih (step s .resyncAll) x hx
          have h2 := step_nextID_mono s .resyncAll
          omega
      | saveM m =>
          intro x hx
          simp only [allocIds] at hx
          have h1 := ih (step s (.saveM m)) x hx
          have h2 := step_nextID_mono s (.saveM m)
          omega
      | destroyM m =>
          intro x hx
          simp only [allocIds] at hx
          have h1 := ih (step s (.destroyM m)) x hx
          have h2 := step_nextID_mono s (.destroyM m)
          omega

theorem allocIds_pairwise (ops : List Op) :
    ∀ s : RegState, (allocIds s ops).Pairwise (· < ·) := by
  induction ops with
  | nil => intro s; simp [allocIds]
  | cons op t ih =>
      intro s
      cases op with
      | add iu eu mt =>
          simp only [allocIds]
          refine List.Pairwise.cons ?_ (ih _)
          intro x hx
          have h1 := allocIds_lower t (step s (.add iu eu mt)) x hx
          have h2 : (step s (.add iu eu mt)).nextID = s.nextID + 1 := by simp [step]
          omega
      | remove iu => simp only [allocIds]; exact ih _
      | removeMeet mt => simp only [allocIds]; exact ih _
      | resyncAll => simp only [allocIds]; exact ih _
      | saveM m => simp only [allocIds]; exact ih _
      | destroyM m => simp only [allocIds]; exact ih _

/-- C6: (1) along every operation sequence the record ids handed out by
`addMapping`'s allocator (`id = nextID++`) are strictly increasing;
(2) after `resync` completes, the allocator's next value is strictly
greater than the id of every reconstructed record (it is raised to
`mapping.id + 1` whenever `mapping.id >= nextID`); hence (3) a fresh
`addMapping` on the resynced state never allocates an id equal to a
recovered record's id. -/
theorem claim6_alloc_monotone :
    (∀ (s : RegState) (ops : List Op), (allocIds s ops).Pairwise (· < ·)) ∧
    (∀ (s : RegState) (m : Mapping), m ∈ (resync false s).2 →
      m.id < (resync false s).1.state.nextID) ∧
    (∀ (s : RegState) (iu eu mt : String) (cb : Bool) (m : Mapping),
      m ∈ (resync false s).2 →
      (addMapping iu eu mt cb (resync false s).1.state).2.id ≠ m.id) := by
  have hb : ∀ (s : RegState) (m : Mapping), m ∈ (resync false s).2 →
      m.id < (resync false s).1.state.nextID := by
    intro s m hm
    cases h : s.client.smembersErr with
    | none =>
        rw [resync_eq_of_ok false s h] at hm ⊢
        exact resyncLoop_recon_lt _ s [] (by simp) m hm
    | some e =>
        rw [resync_eq_of_some h] at hm
        simp at hm
  refine ⟨fun s ops => allocIds_pairwise ops s, hb, ?_⟩
  intro s iu eu mt cb m hm
  have hlt := hb s m hm
  simp only [addMapping_snd]
  intro hEq
  have : (resync false s).1.state.nextID = m.id := hEq
  omega

/-- Witness for `claim6_alloc_monotone` at a concrete resynced store. -/
theorem claim6_witness :
    (⟨1, "u", "e1", "mX"⟩ : Mapping).id < (resync false dupState).1.state.nextID ∧
    (addMapping "v" "e" "m" false (resync false dupState).1.state).2.id ≠
      (⟨1, "u", "e1", "mX"⟩ : Mapping).id :=
  ⟨claim6_alloc_monotone.2.1 dupState ⟨1, "u", "e1", "mX"⟩ (by decide),
   claim6_alloc_monotone.2.2 dupState "v" "e" "m" false ⟨1, "u", "e1", "mX"⟩ (by decide)⟩

end UserMapping

namespace UserMapping

/-! ### C8: the in-memory insertion survives store errors -/

/-- C8: for every `addMapping` call and every outcome of the store writes
(the state `s` carries arbitrary error oracles, so this covers the
`hmset` field write and the `sadd` add-to-set failing as well as
succeeding), the new mapping is inserted into the in-memory index and
`getExternalUserID` immediately reflects it; a store error is only logged
and forwarded to the callback, never blocks the insertion. -/
theorem claim8_insert_despite_store_error (s : RegState) (iu eu mt : String)
    (cb : Bool) :
    dbGet (addMapping iu eu mt cb s).1.state.db iu =
      some (addMapping iu eu mt cb s).2 ∧
    getExternalUserID iu (addMapping iu eu mt cb s).1.state = some eu := by
  constructor
  · simp [dbGet_dbSet]
  · rw [getExternalUserID_addMapping]
    simp

/-! ### C9: superseding a mapping leaves the old persistent record alone -/

/-- C9: when `addMapping` is called with an `internalUserID` already bound
in the index to a mapping `m0`, the superseded record's persistence is
left intact: its hash is untouched (the new write goes to the freshly
allocated id) and its membership in the global id-set is preserved
(nothing is removed from the set), while the in-memory entry is
overwritten by the new mapping.  A later `resync` can therefore read the
superseded record back and re-register it.  The hypothesis
`m0.id < s.nextID` holds in every reachable state, because ids in the
index were previously allocated below the counter. -/
theorem claim9_supersede_frame (s : RegState) (uid eu mt : String) (cb : Bool)
    (m0 : Mapping) (h : dbGet s.db uid = some m0) (hid : m0.id < s.nextID) :
    (addMapping uid eu mt cb s).1.state.client.store.hashes m0.id =
      s.client.store.hashes m0.id ∧
    (m0.id ∈ s.client.store.userMaps →
      m0.id ∈ (addMapping uid eu mt cb s).1.state.client.store.userMaps) ∧
    dbGet (addMapping uid eu mt cb s).1.state.db uid =
      some (addMapping uid eu mt cb s).2 ∧
    (addMapping uid eu mt cb s).2 ≠ m0 := by
  refine ⟨?_, ?_, ?_, ?_⟩
  · exact saveOp_hashes_ne ⟨s.nextID, uid, eu, mt⟩ true
      { s with nextID := s.nextID + 1 } m0.id (Nat.ne_of_lt hid)
  · intro hmem
    exact saveOp_userMaps_mono ⟨s.nextID, uid, eu, mt⟩ true
      { s with nextID := s.nextID + 1 } m0.id hmem
  · simp [dbGet_dbSet]
  · intro hEq
    have : s.nextID = m0.id := congrArg Mapping.id hEq
    omega

/-- Witness for `claim9_supersede_frame` at a concrete state. -/
theorem claim9_witness :
    (addMapping "u1" "e9" "m9" false sampleState).1.state.client.store.hashes
        sampleMapping.id =
      sampleState.client.store.hashes sampleMapping.id ∧
    (sampleMapping.id ∈ sampleState.client.store.userMaps →
      sampleMapping.id ∈
        (addMapping "u1" "e9" "m9" false sampleState).1.state.client.store.userMaps) ∧
    dbGet (addMapping "u1" "e9" "m9" false sampleState).1.state.db "u1" =
      some (addMapping "u1" "e9" "m9" false sampleState).2 ∧
    (addMapping "u1" "e9" "m9" false sampleState).2 ≠ sampleMapping :=
  claim9_supersede_frame sampleState "u1" "e9" "m9" false sampleMapping
    (by decide) (by decide)

end UserMapping

namespace UserMapping

/-! ### C7: the index is well-keyed after every operation -/

theorem map_fst_dbSet (db : Db) (k : String) (v : Mapping) :
    (dbSet db k v).map Prod.fst =
      if dbGet db k = none then db.map Prod.fst ++ [k] else db.map Prod.fst := by
  induction db with
  | nil => simp [dbSet, dbGet]
  | cons p t ih =>
      by_cases h : p.1 = k
      · simp [dbSet, h, dbGet]
      · by_cases h2 : dbGet t k = none <;> simp [dbSet, h, dbGet, h2, ih]

theorem mem_dbSet {db : Db} {k : String} {v : Mapping} {p : String × Mapping}
    (hp : p ∈ dbSet db k v) : p = (k, v) ∨ p ∈ db := by
  induction db with
  | nil => simp [dbSet] at hp; exact Or.inl hp
  | cons q t ih =>
      by_cases h : q.1 = k
      · rw [dbSet, if_pos h] at hp
        rcases List.mem_cons.1 hp with rfl | hp
        · exact Or.inl rfl
        · exact Or.inr (List.mem_cons_of_mem q hp)
      · rw [dbSet, if_neg h] at hp
        rcases List.mem_cons.1 hp with rfl | hp
        · exact Or.inr (List.mem_cons_self _ _)
        · rcases ih hp with hp | hp
          · exact Or.inl hp
          · exact Or.inr (List.mem_cons_of_mem q hp)

theorem DbWF_dbSet {db : Db} {k : String} {v : Mapping} (h : DbWF db)
    (hv : v.internalUserID = k) : DbWF (dbSet db k v) := by
  constructor
  · rw [map_fst_dbSet]
    by_cases hg : dbGet db k = none
    · rw [if_pos hg]
      refine List.Nodup.append h.1 (List.nodup_singleton k) ?_
      intro a ha hb
      rw [List.mem_singleton] at hb
      subst hb
      rcases List.mem_map.1 ha with ⟨p, hp, hpk⟩
      exact (dbGet_eq_none_iff db a).1 hg p hp hpk
    · rw [if_neg hg]
      exact h.1
  · intro p hp
    rcases mem_dbSet hp with rfl | hp
    · exact hv
    · exact h.2 p hp

theorem DbWF_dbDel {db : Db} (h : DbWF db) (k : String) : DbWF (dbDel db k) := by
  constructor
  · exact h.1.sublist (List.Sublist.map Prod.fst (List.filter_sublist db))
  · intro p hp
    exact h.2 p (List.mem_of_mem_filter hp)

theorem DbWF_removeFoldDb (uid : String) (entries : List (String × Mapping))
    (d : Db) (h : DbWF d) :
    DbWF (entries.foldl
      (fun d p => if p.2.internalUserID = uid then dbDel d p.2.internalUserID else d)
      d) := by
  induction entries generalizing d with
  | nil => exact h
  | cons p t ih =>
      rw [List.foldl_cons]
      by_cases hc : p.2.internalUserID = uid
      · rw [if_pos hc]
        exact ih _ (DbWF_dbDel h _)
      · rw [if_neg hc]
        exact ih d h

theorem DbWF_meetFoldDb (mt : String) (entries : List (String × Mapping))
    (d : Db) (h : DbWF d) :
    DbWF (entries.foldl
      (fun d p => if p.2.meetingId = mt then dbDel d p.2.internalUserID else d)
      d) := by
  induction entries generalizing d with
  | nil => exact h
  | cons p t ih =>
      rw [List.foldl_cons]
      by_cases hc : p.2.meetingId = mt
      · rw [if_pos hc]
        exact ih _ (DbWF_dbDel h _)
      · rw [if_neg hc]
        exact ih d h

theorem resyncStep_fst_db (acc : RegState × List Mapping) (id : Nat) :
    (resyncStep acc id).1.db = acc.1.db ∨
    ∃ data : Mapping, (resyncStep acc id).1.db = dbSet acc.1.db data.internalUserID data := by
  cases h : (if (acc.1.client.hgetallErr id).isSome then none
             else acc.1.client.store.hashes id) with
  | none =>
      left
      rw [resyncStep_eq_none h]
  | some data =>
      right
      refine ⟨data, ?_⟩
      rw [resyncStep_eq_some h]
      by_cases h2 : (saveOp data true acc.1).state.nextID ≤ data.id
      · rw [if_pos h2]
        exact saveOp_state_db data true acc.1
      · rw [if_neg h2]
        exact saveOp_state_db data true acc.1

theorem DbWF_resyncLoop (ids : List Nat) (s : RegState) (l : List Mapping)
    (h : DbWF s.db) : DbWF (ids.foldl resyncStep (s, l)).1.db := by
  induction ids generalizing s l with
  | nil => exact h
  | cons id t ih =>
      rw [List.foldl_cons]
      have hwf : DbWF (resyncStep (s, l) id).1.db := by
        rcases resyncStep_fst_db (s, l) id with hd | ⟨data, hd⟩
        · rw [hd]; exact h
        · rw [hd]; exact DbWF_dbSet h rfl
      rw [show resyncStep (s, l) id =
          ((resyncStep (s, l) id).1, (resyncStep (s, l) id).2) from rfl]
      exact ih _ _ hwf

/-- C7: after every operation the in-memory index stays well-keyed: its
keys are pairwise distinct and every key maps to a Mapping whose
`internalUserID` equals that key (so the index holds at most one Mapping
per `internalUserID`).  The invariant is preserved by every single
operation and holds along any operation sequence from an empty index. -/
theorem claim7_db_wellformed :
    (∀ (s : RegState) (op : Op), DbWF s.db → DbWF (step s op).db) ∧
    (∀ (client : RedisClient) (n : Nat) (ops : List Op),
      DbWF (run { db := [], nextID := n, client := client } ops).db) := by
  have hstep : ∀ (s : RegState) (op : Op), DbWF s.db → DbWF (step s op).db := by
    intro s op h
    cases op with
    | add iu eu mt =>
        simp only [step, addMapping_state_db]
        exact DbWF_dbSet h rfl
    | remove iu =>
        simp only [step]
        rw [removeMapping, removeFold_state_db]
        exact DbWF_removeFoldDb iu s.db s.db h
    | removeMeet mt =>
        simp only [step]
        rw [show (removeMappingMeetingId mt false s).1.state =
            (s.db.foldl (removeMeetStep mt false)
              ({ state := s, events := [], faulted := false }, [])).1.state from rfl]
        rw [meetFold_state_db]
        exact DbWF_meetFoldDb mt s.db s.db h
    | resyncAll =>
        cases hs : s.client.smembersErr with
        | none =>
            rw [show step s Op.resyncAll = (resync false s).1.state from rfl,
               resync_eq_of_ok false s hs]
            exact DbWF_resyncLoop _ s [] h
        | some e =>
            rw [show step s Op.resyncAll = (resync false s).1.state from rfl,
               resync_eq_of_some hs]
            exact h
    | saveM m =>
        simp only [step, saveOp_state_db]
        exact DbWF_dbSet h rfl
    | destroyM m =>
        simp only [step, destroyOp_state_db]
        exact DbWF_dbDel h _
  have hrun : ∀ (ops : List Op) (s : RegState), DbWF s.db → DbWF (run s ops).db := by
    intro ops
    induction ops with
    | nil => intro s h; exact h
    | cons op t ih =>
        intro s h
        rw [show run s (op :: t) = run (step s op) t from rfl]
        exact ih _ (hstep s op h)
  exact ⟨hstep, fun client n ops => hrun ops _ ⟨List.nodup_nil, by simp⟩⟩

/-- Witness for `claim7_db_wellformed` at concrete inputs. -/
theorem claim7_witness :
    DbWF (step sampleState (Op.add "u2" "e2" "m2")).db ∧
    DbWF (run { db := [], nextID := 1, client := okClient dupStore }
      [Op.resyncAll, Op.add "a" "b" "c"]).db :=
  ⟨claim7_db_wellformed.1 sampleState (Op.add "u2" "e2" "m2") ⟨by decide, by decide⟩,
   claim7_db_wellformed.2 (okClient dupStore) 1 [Op.resyncAll, Op.add "a" "b" "c"]⟩

end UserMapping

namespace UserMapping

/-! ### C2: resync reconstruction -/

theorem resyncStep_spec {s : RegState} {l : List Mapping} {id : Nat} {data : Mapping}
    (hget : s.client.hgetallErr id = none)
    (hrec : s.client.store.hashes id = some data) :
    (resyncStep (s, l) id).1.db = dbSet s.db data.internalUserID data ∧
    (resyncStep (s, l) id).1.client.hgetallErr = s.client.hgetallErr ∧
    (∀ j, j ≠ data.id →
      (resyncStep (s, l) id).1.client.store.hashes j = s.client.store.hashes j) := by
  have hscrut : (if (((s, l) : RegState × List Mapping).1.client.hgetallErr id).isSome
      then none else ((s, l) : RegState × List Mapping).1.client.store.hashes id) =
      some data := by
    simp [hget, hrec]
  refine ⟨?_, ?_, ?_⟩
  · rw [resyncStep_eq_some hscrut]
    by_cases h2 : (saveOp data true s).state.nextID ≤ data.id
    · rw [if_pos h2]
      exact saveOp_state_db data true s
    · rw [if_neg h2]
      exact saveOp_state_db data true s
  · rw [resyncStep_eq_some hscrut]
    by_cases h2 : (saveOp data true s).state.nextID ≤ data.id
    · rw [if_pos h2]
      exact saveOp_hgetallErr data true s
    · rw [if_neg h2]
      exact saveOp_hgetallErr data true s
  · intro j hj
    rw [resyncStep_eq_some hscrut]
    by_cases h2 : (saveOp data true s).state.nextID ≤ data.id
    · rw [if_pos h2]
      exact saveOp_hashes_ne data true s j hj
    · rw [if_neg h2]
      exact saveOp_hashes_ne data true s j hj

theorem resyncLoop_reconstruct (ids : List Nat) (f : Nat → Mapping) :
    ∀ (s : RegState) (l : List Mapping),
    (∀ id ∈ ids, s.client.hgetallErr id = none) →
    (∀ id ∈ ids, s.client.store.hashes id = some (f id)) →
    (∀ id ∈ ids, (f id).id = id) →
    ids.Nodup →
    (∀ id ∈ ids, dbGet s.db (f id).internalUserID = none) →
    ids.Pairwise (fun i j => (f i).internalUserID ≠ (f j).internalUserID) →
    (ids.foldl resyncStep (s, l)).1.db.length = s.db.length + ids.length ∧
    (∀ id ∈ ids, id < (ids.foldl resyncStep (s, l)).1.nextID) := by
  induction ids with
  | nil =>
      intro s l _ _ _ _ _ _
      exact ⟨by simp, by simp⟩
  | cons id t ih =>
      intro s l hget hrec hid hnd hdisj hpair
      have hgid : s.client.hgetallErr id = none := hget id (by simp)
      have hrid : s.client.store.hashes id = some (f id) := hrec id (by simp)
      have hscrut : (if (((s, l) : RegState × List Mapping).1.client.hgetallErr id).isSome
          then none else ((s, l) : RegState × List Mapping).1.client.store.hashes id) =
          some (f id) := by
        simp [hgid, hrid]
      obtain ⟨hdb1, herr1, hhash1⟩ := @resyncStep_spec s l id (f id) hgid hrid
      have hmono1 : s.nextID ≤ (resyncStep (s, l) id).1.nextID :=
        resyncStep_nextID_mono (s, l) id
      have hidlt : id < (resyncStep (s, l) id).1.nextID := by
        have h := @resyncStep_id_lt (s, l) id (f id) hscrut
        rwa [hid id (by simp)] at h
      have hnotmem : id ∉ t := (List.nodup_cons.1 hnd).1
      have hpairhead : ∀ j ∈ t, (f id).internalUserID ≠ (f j).internalUserID :=
        (List.pairwise_cons.1 hpair).1
      rw [List.foldl_cons,
        show resyncStep (s, l) id =
          ((resyncStep (s, l) id).1, (resyncStep (s, l) id).2) from rfl]
      have IH := ih (resyncStep (s, l) id).1 (resyncStep (s, l) id).2
        (by
          intro j hj
          rw [herr1]
          exact hget j (List.mem_cons_of_mem id hj))
        (by
          intro j hj
          have hne : j ≠ (f id).id := by
            rw [hid id (by simp)]
            intro hEq
            exact hnotmem (hEq ▸ hj)
          rw [hhash1 j hne]
          exact hrec j (List.mem_cons_of_mem id hj))
        (by
          intro j hj
          exact hid j (List.mem_cons_of_mem id hj))
        (List.nodup_cons.1 hnd).2
        (by
          intro j hj
          rw [hdb1, dbGet_dbSet]
          rw [if_neg (hpairhead j hj)]
          exact hdisj j (List.mem_cons_of_mem id hj))
        (List.pairwise_cons.1 hpair).2
      constructor
      · rw [IH.1, hdb1, length_dbSet_of_get_none _ (hdisj id (by simp))]
        simp [Nat.add_assoc, Nat.add_comm 1 t.length]
      · intro j hj
        rcases List.mem_cons.1 hj with hEq | hj
        · have hmono2 : (resyncStep (s, l) id).1.nextID ≤
              (t.foldl resyncStep
                ((resyncStep (s, l) id).1, (resyncStep (s, l) id).2)).1.nextID :=
            resyncLoop_nextID_mono t _ _
          rw [hEq]
          omega
        · exact IH.2 j hj

/-- C2 (counterexample): a store whose id-set lists exactly two ids, each
with a matching field group, on which `resync` from a fresh registry
reconstructs only ONE `listAll` entry: the two field groups share the
`internalUserID` `"u"`, so the second reconstruction overwrites the first
in the index. -/
theorem claim2_counterexample :
    dupState.db = [] ∧
    dupState.client.store.userMaps.length = 2 ∧
    (∀ id ∈ dupState.client.store.userMaps,
      ∃ d, dupState.client.store.hashes id = some d ∧ d.id = id) ∧
    ¬ ((allSync (resync false dupState).1.state).length = 2) ∧
    (allSync (resync false dupState).1.state).length = 1 := by
  refine ⟨rfl, rfl, ?_, by decide, by decide⟩
  intro id hid
  rw [show dupState.client.store.userMaps = [1, 2] from rfl] at hid
  have h : id = 1 ∨ id = 2 := by simpa using hid
  rcases h with rfl | rfl
  · exact ⟨_, rfl, rfl⟩
  · exact ⟨_, rfl, rfl⟩

/-- C2 (amended): `resync` run from a fresh registry (empty index) over a
store whose id-set lists exactly N ids — each with a matching, readable
field group, and with PAIRWISE-DISTINCT `internalUserID`s across those
field groups — reconstructs exactly N entries in `allSync`, and the
allocator's next id is strictly greater than every reconstructed id.
(The distinctness hypothesis is forced by the counterexample: field
groups sharing an `internalUserID` collapse into one index entry.) -/
theorem claim2_resync_distinct (s : RegState) (f : Nat → Mapping)
    (hdb : s.db = [])
    (hsm : s.client.smembersErr = none)
    (hget : ∀ id ∈ s.client.store.userMaps, s.client.hgetallErr id = none)
    (hrec : ∀ id ∈ s.client.store.userMaps, s.client.store.hashes id = some (f id))
    (hid : ∀ id ∈ s.client.store.userMaps, (f id).id = id)
    (hnd : s.client.store.userMaps.Nodup)
    (hpair : s.client.store.userMaps.Pairwise
      (fun i j => (f i).internalUserID ≠ (f j).internalUserID)) :
    (allSync (resync false s).1.state).length = s.client.store.userMaps.length ∧
    ∀ id ∈ s.client.store.userMaps, id < (resync false s).1.state.nextID := by
  have hdisj : ∀ id ∈ s.client.store.userMaps,
      dbGet s.db (f id).internalUserID = none := by
    intro id _
    rw [hdb]
    rfl
  have h := resyncLoop_reconstruct s.client.store.userMaps f s []
    hget hrec hid hnd hdisj hpair
  rw [resync_eq_of_ok false s hsm]
  constructor
  · show ((s.client.store.userMaps.foldl resyncStep (s, [])).1.db.map
      (fun p => p.2)).length = s.client.store.userMaps.length
    rw [List.length_map, h.1, hdb]
    simp
  · intro id hmem
    show id < (s.client.store.userMaps.foldl resyncStep (s, [])).1.nextID
    exact h.2 id hmem

/-- A store with two records carrying distinct `internalUserID`s. -/
def goodStore : RedisStore :=
  { userMaps := [1, 2],
    hashes := fun i =>
      if i = 1 then some ⟨1, "uA", "eA", "mX"⟩
      else if i = 2 then some ⟨2, "uB", "eB", "mX"⟩
      else none }

/-- A fresh registry over `goodStore`. -/
def goodState : RegState := { db := [], nextID := 1, client := okClient goodStore }

/-- The records of `goodStore`, as a function of the id. -/
def goodRecs : Nat → Mapping := fun i =>
  if i = 1 then ⟨1, "uA", "eA", "mX"⟩ else ⟨2, "uB", "eB", "mX"⟩

/-- Witness for `claim2_resync_distinct` at a concrete two-record store. -/
theorem claim2_witness :
    (allSync (resync false goodState).1.state).length =
      goodState.client.store.userMaps.length ∧
    ∀ id ∈ goodState.client.store.userMaps,
      id < (resync false goodState).1.state.nextID :=
  claim2_resync_distinct goodState goodRecs rfl rfl
    (by intro id _; rfl)
    (by
      intro id hid
      rw [show goodState.client.store.userMaps = [1, 2] from rfl] at hid
      have h : id = 1 ∨ id = 2 := by simpa using hid
      rcases h with rfl | rfl <;> rfl)
    (by
      intro id hid
      rw [show goodState.client.store.userMaps = [1, 2] from rfl] at hid
      have h : id = 1 ∨ id = 2 := by simpa using hid
      rcases h with rfl | rfl <;> rfl)
    (by decide)
    (by decide)

end UserMapping
